import Mathlib

/-!
Verification of the AsyncContext repository: a shallow embedding of the
scoped-store engine (`src/unnamed/part_012`, class `Context`) and of the
structured logger (`src/core/logging/logger.ts`).

JavaScript runtime values are modelled with an explicit heap: primitives and
function values are immediate, every object (plain object, array, `Error`,
`Date`, `Map`, `Set`) lives in a heap addressed by `Nat`, and `Value.ref`
is an object reference.  Object identity — which drives the `WeakSet`-based
cycle detection of `normalizeValue` — is address equality.  Bounded
recursion in the embedding is expressed with an explicit fuel parameter;
a `none` result models a computation that never finishes (in Node.js, a
stack overflow).  JavaScript numbers are modelled as `Int`: none of the
verified claims depends on fractional or IEEE-754 behaviour (the sampling
rate and random draw of the logger are modelled separately as `ℚ`).
-/

namespace AsyncContext

/-- JavaScript primitive values (plus `bigint`, which is primitive in JS). -/
inductive JsPrim where
  | str (s : String)
  | num (n : Int)
  | bool (b : Bool)
  | null
  | undef
  | bigint (n : Int)
deriving DecidableEq, Repr

/-- A JavaScript value: a primitive, a function (named; the empty string
models an anonymous function), or a reference to a heap object. -/
inductive Value where
  | prim (p : JsPrim)
  | func (name : String)
  | ref (a : Nat)
deriving DecidableEq, Repr

/-- Heap-resident objects.  `errObj` models an `Error` instance with
`name`, `message`, optional `stack` and optional `cause` own property
(`cause = none` means the property is absent).  `dateObj` carries the
`toISOString()` rendering.  `mapObj` keys are the `String(key)` renderings
of the Map keys. -/
inductive HeapObj where
  | obj (fields : List (String × Value))
  | arr (elems : List Value)
  | errObj (name message : String) (stack : Option String) (cause : Option Value)
  | dateObj (iso : String)
  | mapObj (entries : List (String × Value))
  | setObj (elems : List Value)
deriving DecidableEq, Repr

abbrev Heap := List HeapObj

/-- JavaScript truthiness of a value.  Objects and functions are always
truthy; `""`, `0`, `0n`, `false`, `null`, `undefined` are falsy. -/
def jsTruthy : Value → Bool
  | .prim (.str s) => s ≠ ""
  | .prim (.num n) => n ≠ 0
  | .prim (.bool b) => b
  | .prim .null => false
  | .prim .undef => false
  | .prim (.bigint n) => n ≠ 0
  | .func _ => true
  | .ref _ => true

/-- `String(v)` for the non-object values that reach it in this code base.
Converting a function yields its source text in JS; it is modelled by a
placeholder naming the function (no verified claim exercises it). -/
def jsPrimToString : JsPrim → String
  | .str s => s
  | .num n => toString n
  | .bool b => if b then "true" else "false"
  | .null => "null"
  | .undef => "undefined"
  | .bigint n => toString n

/-- Normalized (JSON-safe) values: the output domain of `normalizeValue`.
These are pure trees — `normalizeValue` builds fresh objects. -/
inductive NValue where
  | prim (p : JsPrim)
  | nobj (fields : List (String × NValue))
  | narr (elems : List NValue)

mutual

/-- Whether a string occurs anywhere in a normalized tree. -/
def nvContains (s : String) : NValue → Bool
  | .prim (.str t) => t == s
  | .prim _ => false
  | .nobj fields => nvContainsFields s fields
  | .narr elems => nvContainsElems s elems

/-- `nvContains` over object fields. -/
def nvContainsFields (s : String) : List (String × NValue) → Bool
  | [] => false
  | (_, v) :: rest => nvContains s v || nvContainsFields s rest

/-- `nvContains` over array elements. -/
def nvContainsElems (s : String) : List NValue → Bool
  | [] => false
  | v :: rest => nvContains s v || nvContainsElems s rest

end

mutual

/-- Nesting depth of a normalized tree (primitives have depth 0). -/
def nvDepth : NValue → Nat
  | .prim _ => 0
  | .nobj fields => nvDepthFields fields + 1
  | .narr elems => nvDepthElems elems + 1

/-- `nvDepth` over object fields. -/
def nvDepthFields : List (String × NValue) → Nat
  | [] => 0
  | (_, v) :: rest => max (nvDepth v) (nvDepthFields rest)

/-- `nvDepth` over array elements. -/
def nvDepthElems : List NValue → Nat
  | [] => 0
  | v :: rest => max (nvDepth v) (nvDepthElems rest)

end

mutual

/-- Embedding of `normalizeValue(value, seen)` from
`src/core/logging/logger.ts` (lines 127–174).  The `seen` list is the
`WeakSet` of already-visited object addresses, threaded through the
traversal exactly as the shared mutable `WeakSet` is in the source: it is
extended on every first visit of an object and never pruned.  `fuel`
bounds the number of first visits; the source has no such bound, so a
`none` result models a computation that recurses without bound.  A
dangling address normalizes to `undefined`; it is unreachable for heaps
built by the embedded operations, since JS references cannot dangle. -/
def normalizeValueF : Nat → Heap → Value → List Nat → Option (NValue × List Nat)
  | _, _, .prim (.bigint n), seen => some (.prim (.str (toString n)), seen)
  | _, _, .prim p, seen => some (.prim p, seen)
  | _, _, .func n, seen =>
    some (.prim (.str ("[Function " ++ (if n = "" then "anonymous" else n) ++ "]")), seen)
  | fuel, h, .ref a, seen =>
    if a ∈ seen then some (.prim (.str "[Circular]"), seen)
    else
      match fuel with
      | 0 => none
      | fuel' + 1 =>
        match h.get? a with
        | none => some (.prim .undef, a :: seen)
        | some (.errObj name msg stack cause) => do
          let fields ← serializeErrorFieldsF fuel' h name msg stack cause
          some (.nobj fields, a :: seen)
        | some (.dateObj iso) => some (.prim (.str iso), a :: seen)
        | some (.mapObj entries) => do
          let (fields, seen') ← normalizeFieldsF fuel' h entries (a :: seen)
          some (.nobj fields, seen')
        | some (.setObj elems) => do
          let (items, seen') ← normalizeElemsF fuel' h elems (a :: seen)
          some (.narr items, seen')
        | some (.arr elems) => do
          let (items, seen') ← normalizeElemsF fuel' h elems (a :: seen)
          some (.narr items, seen')
        | some (.obj fields) => do
          let (fields', seen') ← normalizeFieldsF fuel' h fields (a :: seen)
          some (.nobj fields', seen')
termination_by fuel _ _ _ => (fuel, 0)

/-- Embedding of the body of `serializeError` for an `Error` instance
(`logger.ts` lines 184–199): `{name, message, stack}` (the `stack` key is
present even when `error.stack` is `undefined`), plus `cause` when the
`cause` property exists and is not `undefined`.  Crucially, the source
normalizes the cause with `normalizeValue(error.cause)` — a FRESH visited
set (the `seen` default parameter), not the caller's. -/
def serializeErrorFieldsF (fuel : Nat) (h : Heap) (name msg : String)
    (stack : Option String) (cause : Option Value) :
    Option (List (String × NValue)) := do
  let base := [("name", NValue.prim (.str name)), ("message", NValue.prim (.str msg)),
    ("stack", stack.elim (NValue.prim .undef) (fun s => NValue.prim (.str s)))]
  match cause with
  | none => some base
  | some c =>
    if c = Value.prim .undef then some base
    else do
      let (cn, _) ← normalizeValueF fuel h c []
      some (base ++ [("cause", cn)])
termination_by (fuel, 1)

/-- `normalizeValue` folded over the entries of an object or Map,
threading the visited set. -/
def normalizeFieldsF : Nat → Heap → List (String × Value) → List Nat →
    Option (List (String × NValue) × List Nat)
  | _, _, [], seen => some ([], seen)
  | fuel, h, (k, v) :: rest, seen => do
    let (n, seen') ← normalizeValueF fuel h v seen
    let (ns, seen'') ← normalizeFieldsF fuel h rest seen'
    some ((k, n) :: ns, seen'')
termination_by fuel _ l _ => (fuel, l.length + 2)

/-- `normalizeValue` mapped over the elements of an array or Set,
threading the visited set. -/
def normalizeElemsF : Nat → Heap → List Value → List Nat →
    Option (List NValue × List Nat)
  | _, _, [], seen => some ([], seen)
  | fuel, h, v :: rest, seen => do
    let (n, seen') ← normalizeValueF fuel h v seen
    let (ns, seen'') ← normalizeElemsF fuel h rest seen'
    some (n :: ns, seen'')
termination_by fuel _ l _ => (fuel, l.length + 2)

end

/-- Top-level `normalizeValue(value)` with a fresh visited set.  For a
heap with no reachable `Error.cause` chains, `h.length + 1` units of fuel
visit every object at most once. -/
def normalizeValue (h : Heap) (v : Value) : Option (NValue × List Nat) :=
  normalizeValueF (h.length + 1) h v []

/-! ## The scoped context (`src/unnamed/part_012`, class `Context`)

A `Store` is the own-property binding map of the store object: keys in
insertion order, values possibly references to shared heap objects.  The
store operations below are the bodies of the corresponding static methods
after `requireStore`/`getStore` has produced the store; the heap is
threaded explicitly so that in-place mutation of nested objects
(`Object.assign`, `Array.prototype.push`) is observable. -/

abbrev Store := List (String × Value)

/-- Own-property lookup (`Object.prototype.hasOwnProperty` + indexing):
`some v` when the key is an own property (even when `v` is `undefined`),
`none` when absent. -/
def storeLookup (s : Store) (k : String) : Option Value :=
  s.lookup k

/-- JS property assignment `obj[k] = v`: replaces the value of an existing
key in place (insertion order kept) or appends a new key. -/
def setKey (s : Store) (k : String) (v : Value) : Store :=
  if s.any (fun p => p.1 = k) then
    s.map (fun p => if p.1 = k then (p.1, v) else p)
  else s ++ [(k, v)]

/-- `delete obj[k]`. -/
def removeKey (s : Store) (k : String) : Store :=
  s.filter (fun p => p.1 ≠ k)

/-- Spread/`Object.assign` merge `{ ...base, ...overlay }`: every binding
of `overlay` assigned onto `base` in order. -/
def mergeStores (base overlay : Store) : Store :=
  overlay.foldl (fun acc p => setKey acc p.1 p.2) base

/-- The store created by `Context.runWith(values, cb)` (lines 160–164):
a shallow copy of the parent's store (or `{}` when no scope is active)
spread-merged with the overlay, overlay keys winning. -/
def runWithStore (parent : Option Store) (values : Store) : Store :=
  mergeStores (match parent with | some s => s | none => []) values

/-- `Context.getValue(key, defaultValue)` (lines 200–207): fallback when
no scope is active, own-property lookup otherwise; the fallback is used
only when the key is absent. -/
def getValue (active : Option Store) (k : String) (fallback : Value) : Value :=
  match active with
  | none => fallback
  | some s =>
    match storeLookup s k with
    | some v => v
    | none => fallback

/-- `Context.has(key)` (lines 235–240). -/
def hasKey (active : Option Store) (k : String) : Bool :=
  match active with
  | none => false
  | some s => (storeLookup s k).isSome

/-- The typed failures raised by the `Context` methods. -/
inductive CtxErr where
  | noActiveScope
  | missingValue (key : String)
  | keyNotObject (key : String)
  | removalNotFound
  | missingCallback
deriving DecidableEq, Repr

/-- `Context.addValue(key, value)` body (store already required). -/
def addValue (k : String) (v : Value) (s : Store) (h : Heap) : Store × Heap :=
  (setKey s k v, h)

/-- `Context.addObjectValue(object)` body: `Object.assign(store, object)`. -/
def addObjectValue (o : List (String × Value)) (s : Store) (h : Heap) : Store × Heap :=
  (mergeStores s o, h)

/-- `Context.remove(key)` body (no-op when absent). -/
def removeOp (k : String) (s : Store) (h : Heap) : Store × Heap :=
  (removeKey s k, h)

/-- `Context.reset()` body: deletes every own key. -/
def resetOp (_s : Store) (h : Heap) : Store × Heap :=
  (([] : Store), h)

/-- `Context.setDefault(key, value)` body: assigns only when the key is
not an own property (a key present with value `undefined` is kept). -/
def setDefaultOp (k : String) (v : Value) (s : Store) (h : Heap) : Store × Heap :=
  (if (storeLookup s k).isSome then s else setKey s k v, h)

/-- `Context.addOptions(options, key)` body (lines 328–343).  When the
key's value is `undefined` (absent or explicitly undefined) a fresh bag
`{ ...options }` is allocated; when it is an existing non-array object,
`Object.assign(existing, options)` mutates that object IN PLACE on the
heap; otherwise `KeyNotObject` is thrown.  `Object.assign` onto an exotic
object (`Date`, `Map`, `Set`, `Error`) attaches own properties that this
model does not represent; no verified claim exercises that case. -/
def addOptions (options : List (String × Value)) (key : String) (s : Store) (h : Heap) :
    Except CtxErr (Store × Heap) :=
  let existing := (storeLookup s key).getD (.prim .undef)
  if existing = .prim .undef then
    .ok (setKey s key (.ref h.length), h ++ [.obj options])
  else
    match existing with
    | .ref a =>
      match h.get? a with
      | some (.arr _) => .error (.keyNotObject key)
      | some (.obj fields) => .ok (s, h.set a (.obj (mergeStores fields options)))
      | some _ => .ok (s, h)
      | none => .ok (s, h)
    | _ => .error (.keyNotObject key)

/-- `normalizePerformanceError` (lines 502–517): `Error` instances give
`{name, message}`; strings give `{message}`; other truthy objects are
probed for string `message`/`name` own properties (the `name` key is
present even when `undefined`); anything else is `String(error)`
(converting a function value yields its source text in JS, modelled by a
placeholder — no claim exercises it). -/
def normalizePerformanceError (h : Heap) (e : Value) : List (String × Value) :=
  match e with
  | .ref a =>
    match h.get? a with
    | some (.errObj n m _ _) => [("name", .prim (.str n)), ("message", .prim (.str m))]
    | some other =>
      let fields := match other with | .obj fs => fs | _ => []
      let msg := match fields.lookup "message" with
        | some (.prim (.str s)) => s
        | _ => "Unknown error"
      let nameVal : Value := match fields.lookup "name" with
        | some (.prim (.str s)) => .prim (.str s)
        | _ => .prim .undef
      [("name", nameVal), ("message", .prim (.str msg))]
    | none => [("name", .prim .undef), ("message", .prim (.str "Unknown error"))]
  | .prim (.str s) => [("message", .prim (.str s))]
  | .func n => [("message", .prim (.str ("function " ++ n)))]
  | .prim p => [("message", .prim (.str (jsPrimToString p)))]

/-- `"append" | "overwrite"` recording mode. -/
inductive RecordMode where
  | append
  | overwrite
deriving DecidableEq, Repr

/-- `PerformanceMeasureOptions`: `key`, `mode`, and the `data` bag
(`now` is modelled by explicit timestamps passed to `measure`). -/
structure MeasureOptions where
  key : Option String
  mode : Option RecordMode
  data : Option (List (String × Value))
deriving Repr

/-- `Context.recordPerformance(entry, options)` body once a store is
active (lines 358–385): `overwrite` rebinds the key; `append` pushes onto
an existing array IN PLACE on the heap, creates a fresh singleton array
when the key's value is `undefined`, and otherwise wraps the pre-existing
scalar and the entry into a fresh two-element array. -/
def recordPerformance (entry : Value) (key : String) (mode : RecordMode)
    (s : Store) (h : Heap) : Store × Heap :=
  match mode with
  | .overwrite => (setKey s key entry, h)
  | .append =>
    let existing := (storeLookup s key).getD (.prim .undef)
    match existing with
    | .ref a =>
      match h.get? a with
      | some (.arr elems) => (s, h.set a (.arr (elems ++ [entry])))
      | _ => (setKey s key (.ref h.length), h ++ [.arr [existing, entry]])
    | .prim .undef => (setKey s key (.ref h.length), h ++ [.arr [entry]])
    | _ => (setKey s key (.ref h.length), h ++ [.arr [existing, entry]])

/-- `Context.measure(name, callback, options)` (lines 397–444).  The
callback's behaviour is summarized by `outcome` (`.ok` = returned value /
resolved promise, `.error` = thrown value / rejection reason; the sync and
async paths run the same `finalize` and re-throw).  `t0`/`t1` are the two
`now()` readings.  `finalize` builds the entry `{name, startedAt, endedAt,
durationMs}` with `durationMs = Math.max(0, endedAt - startedAt)`,
attaches a copy of `options.data` when supplied, attaches the normalized
error only when the thrown value is truthy (`if (error)`), and hands the
entry to `recordPerformance`, which drops it silently when no scope is
active (`getStore()` undefined).  The entry/data/error objects are
allocated at record time; an entry built with no active scope is
unreachable garbage either way.  The original outcome is always
propagated unchanged. -/
def measure (name : String) (outcome : Except Value Value) (opts : MeasureOptions)
    (t0 t1 : Int) (active : Option Store) (h : Heap) :
    Except Value Value × Option Store × Heap :=
  let errFields : Option (List (String × Value)) :=
    match outcome with
    | .ok _ => none
    | .error e => if jsTruthy e then some (normalizePerformanceError h e) else none
  match active with
  | none => (outcome, none, h)
  | some s =>
    let (dataField, h1) :=
      match opts.data with
      | some d => ([("data", Value.ref h.length)], h ++ [HeapObj.obj d])
      | none => ([], h)
    let (errField, h2) :=
      match errFields with
      | some ef => ([("error", Value.ref h1.length)], h1 ++ [HeapObj.obj ef])
      | none => ([], h1)
    let entryFields := [("name", Value.prim (.str name)),
      ("startedAt", Value.prim (.num t0)), ("endedAt", Value.prim (.num t1)),
      ("durationMs", Value.prim (.num (max 0 (t1 - t0))))] ++ dataField ++ errField
    let entry := Value.ref h2.length
    let h3 := h2 ++ [HeapObj.obj entryFields]
    let (s', h4) := recordPerformance entry (opts.key.getD "perf") (opts.mode.getD .append) s h3
    (outcome, some s', h4)

/-! ## The structured logger (`src/core/logging/logger.ts`) -/

/-- `typeof v === "string"` rendered as an optional string. -/
def asString : Value → Option String
  | .prim (.str s) => some s
  | _ => none

/-- `v instanceof Error`. -/
def isErrorInstance (h : Heap) (v : Value) : Bool :=
  match v with
  | .ref a => match h.get? a with | some (.errObj _ _ _ _) => true | _ => false
  | _ => false

/-- `isRecord` (lines 115–117): a non-null, non-array object. -/
def isRecordV (h : Heap) (v : Value) : Bool :=
  match v with
  | .ref a => match h.get? a with | some (.arr _) => false | _ => true
  | _ => false

/-- `Array.isArray(v)`. -/
def isArrayV (h : Heap) (v : Value) : Bool :=
  match v with
  | .ref a => match h.get? a with | some (.arr _) => true | _ => false
  | _ => false

/-- `serializeError` (lines 184–209): falsy values give `undefined`
(`some none`); `Error` instances give `{name, message, stack, cause?}`;
strings give `{message}`; anything else gives a `Non-Error value thrown`
wrapper whose `details` are normalized with a fresh visited set. -/
def serializeErrorF (fuel : Nat) (h : Heap) (v : Value) : Option (Option NValue) :=
  if jsTruthy v = false then some none
  else
    match v with
    | .ref a =>
      match h.get? a with
      | some (.errObj n m stack cause) => do
        let fields ← serializeErrorFieldsF fuel h n m stack cause
        some (some (.nobj fields))
      | _ => do
        let (d, _) ← normalizeValueF fuel h v []
        some (some (.nobj [("message", .prim (.str "Non-Error value thrown")), ("details", d)]))
    | .prim (.str s) => some (some (.nobj [("message", .prim (.str s))]))
    | _ => do
      let (d, _) ← normalizeValueF fuel h v []
      some (some (.nobj [("message", .prim (.str "Non-Error value thrown")), ("details", d)]))

/-- `normalizeData` (lines 466–472).  Note the source order: the
`isRecord` test precedes the `instanceof Error` test, so an `Error`
passed as data is normalized by the record branch and the dedicated
`{error: ...}` branch is dead for genuine `Error` instances. -/
def normalizeDataF (fuel : Nat) (h : Heap) (v : Value) : Option (Option NValue) :=
  if v = .prim .undef then some none
  else if isRecordV h v then do
    let (n, _) ← normalizeValueF fuel h v []
    some (some n)
  else if isArrayV h v then do
    let (n, _) ← normalizeValueF fuel h v []
    some (some (.nobj [("items", n)]))
  else if isErrorInstance h v then do
    let e ← serializeErrorF fuel h v
    some (some (.nobj [("error", e.elim (.prim .undef) id)]))
  else do
    let (n, _) ← normalizeValueF fuel h v []
    some (some (.nobj [("value", n)]))

/-- The `{message?, data?, error?}` result of `extractParts`. -/
structure ExtractedParts where
  message : Option String
  data : Option NValue
  error : Option NValue

/-- `extractParts(args)` (lines 482–531): the argument-dispatch protocol
of `log(level, ...args)`.  Missing positional arguments are `undefined`. -/
def extractPartsF (fuel : Nat) (h : Heap) (args : List Value) : Option ExtractedParts :=
  if args.length = 0 then some ⟨none, none, none⟩
  else
    let first := args.getD 0 (.prim .undef)
    let second := args.getD 1 (.prim .undef)
    let third := args.getD 2 (.prim .undef)
    match asString first with
    | some s =>
      if isErrorInstance h second then do
        let d ← normalizeDataF fuel h third
        let e ← serializeErrorF fuel h second
        some ⟨some s, d, e⟩
      else do
        let d ← normalizeDataF fuel h second
        let e ← serializeErrorF fuel h third
        some ⟨some s, d, e⟩
    | none =>
      if isErrorInstance h first then
        match asString second with
        | some s => do
          let d ← normalizeDataF fuel h third
          let e ← serializeErrorF fuel h first
          some ⟨some s, d, e⟩
        | none => do
          let d ← normalizeDataF fuel h second
          let e ← serializeErrorF fuel h first
          some ⟨none, d, e⟩
      else do
        let d ← normalizeDataF fuel h first
        let e ← if isErrorInstance h second then serializeErrorF fuel h second
                else serializeErrorF fuel h third
        some ⟨asString second, d, e⟩

/-! ### Redaction

Redaction runs on the fully assembled entry, which is built exclusively
from freshly allocated normalization output: an acyclic, unshared tree.
The `WeakSet` guard of `applyKeyNameRedaction` therefore never fires and
the in-place mutation is modelled as a pure rewrite of the tree. -/

/-- ASCII lower-casing of one character (`String.prototype.toLowerCase`
restricted to ASCII; every redaction key in the repository is ASCII). -/
def lowerChar (c : Char) : Char :=
  if 65 ≤ c.toNat ∧ c.toNat ≤ 90 then Char.ofNat (c.toNat + 32) else c

/-- Membership in `[a-z0-9]`: the characters `replace(/[^a-z0-9]/g, "")`
keeps. -/
def keepAlnum (c : Char) : Bool :=
  (97 ≤ c.toNat && c.toNat ≤ 122) || (48 ≤ c.toNat && c.toNat ≤ 57)

/-- `normalizeRedactionKey` (lines 239–241): lower-case, then strip every
character outside `[a-z0-9]`. -/
def normalizeRedactionKey (k : String) : String :=
  String.mk ((k.data.map lowerChar).filter keepAlnum)

/-- `DEFAULT_REDACT_FIELDS` (lines 69–93). -/
def DEFAULT_REDACT_FIELDS : List String :=
  ["password", "pass", "pwd", "secret", "token", "access_token", "refresh_token",
   "id_token", "authorization", "cookie", "set_cookie", "session", "sessionid",
   "api_key", "apikey", "x_api_key", "client_secret", "private_key", "signature",
   "jwt", "bearer", "csrf", "xsrf"]

/-- `buildRedactionKeySet` (lines 251–265): defaults (when enabled) plus
caller fields, each normalized, empty results dropped.  The source
collects them into a `Set`; membership is what matters, so a list with
`contains` is used (duplicates do not change membership). -/
def buildRedactionKeySet (fields : List String) (includeDefaults : Bool) : List String :=
  (((if includeDefaults then DEFAULT_REDACT_FIELDS else []) ++ fields).map
    normalizeRedactionKey).filter (· ≠ "")

mutual

/-- The `visit` closure of `applyKeyNameRedaction` (lines 284–304):
arrays are traversed element-wise; in objects, a key whose normalized
name is in the set has its value replaced by the placeholder without
further recursion, and other object-valued entries are visited. -/
def knVisit (ks : List String) (ph : String) : NValue → NValue
  | .narr items => .narr (knElems ks ph items)
  | .nobj fields => .nobj (knFields ks ph fields)
  | v => v

/-- `knVisit` over array elements. -/
def knElems (ks : List String) (ph : String) : List NValue → List NValue
  | [] => []
  | v :: rest => knVisit ks ph v :: knElems ks ph rest

/-- `knVisit` over object entries. -/
def knFields (ks : List String) (ph : String) :
    List (String × NValue) → List (String × NValue)
  | [] => []
  | (k, item) :: rest =>
    (if ks.contains (normalizeRedactionKey k) then (k, NValue.prim (.str ph))
     else match item with
       | .nobj _ => (k, knVisit ks ph item)
       | .narr _ => (k, knVisit ks ph item)
       | _ => (k, item)) :: knFields ks ph rest

end

/-- `applyKeyNameRedaction` (lines 275–307): no-op for an empty key set
or a non-object value. -/
def applyKeyNameRedaction (v : NValue) (ks : List String) (ph : String) : NValue :=
  if ks.length = 0 then v
  else match v with
    | .nobj _ => knVisit ks ph v
    | .narr _ => knVisit ks ph v
    | _ => v

/-- `next && typeof next === "object"`: the composite values path
redaction descends into. -/
def nvIsComposite : NValue → Bool
  | .nobj _ => true
  | .narr _ => true
  | _ => false

/-- `Number(head)` followed by `Number.isInteger`: the array-index
interpretation of a path segment.  Canonical decimal digit strings agree
with JS; exotic spellings (`"1e2"`, `"2.0"`) would parse in JS but are
rejected here — no redaction path in the repository uses them.  Negative
indices are rejected, matching the source's `index >= 0` range check and
the absent-property no-op on descent. -/
def parseIndex (s : String) : Option Nat :=
  s.toNat?

/-- JS property assignment on an object field list: replace in place or
append (`target[head] = placeholder` creates an absent key). -/
def setFieldN (fields : List (String × NValue)) (key : String) (ph : String) :
    List (String × NValue) :=
  if fields.any (fun p => p.1 = key) then
    fields.map (fun p => if p.1 = key then (p.1, NValue.prim (.str ph)) else p)
  else fields ++ [(key, NValue.prim (.str ph))]

mutual

/-- `redactPath(target, parts, placeholder)` (lines 340–401) as a pure
rewrite: `*` fans out over every element/value, a terminal segment
replaces the value (array indices range-checked, object keys assigned),
and a non-terminal segment descends only into an object-valued child. -/
def redactPathN (ph : String) : NValue → List String → NValue
  | t, [] => t
  | t, head :: tail =>
    if head = "*" then
      match t with
      | .narr items =>
        if tail.length = 0 then .narr (items.map fun _ => NValue.prim (.str ph))
        else .narr (redactStarElems ph tail items)
      | .nobj fields =>
        if tail.length = 0 then .nobj (fields.map fun p => (p.1, NValue.prim (.str ph)))
        else .nobj (redactStarFields ph tail fields)
      | t => t
    else
      match t with
      | .narr items =>
        (match parseIndex head with
         | some i =>
           if tail.length = 0 then
             if i < items.length then .narr (items.set i (NValue.prim (.str ph)))
             else .narr items
           else .narr (redactIdxElems ph i tail items)
         | none => .narr items)
      | .nobj fields =>
        if tail.length = 0 then .nobj (setFieldN fields head ph)
        else .nobj (redactKeyFields ph head tail fields)
      | t => t

/-- Wildcard descent over array elements (`for (const item of target)`). -/
def redactStarElems (ph : String) (tail : List String) : List NValue → List NValue
  | [] => []
  | v :: rest =>
    (if nvIsComposite v then redactPathN ph v tail else v) :: redactStarElems ph tail rest

/-- Wildcard descent over object values (`for (const value of Object.values)`). -/
def redactStarFields (ph : String) (tail : List String) :
    List (String × NValue) → List (String × NValue)
  | [] => []
  | (k, v) :: rest =>
    (k, if nvIsComposite v then redactPathN ph v tail else v) :: redactStarFields ph tail rest

/-- Descent into `target[index]` of an array. -/
def redactIdxElems (ph : String) (i : Nat) (tail : List String) : List NValue → List NValue
  | [] => []
  | v :: rest =>
    if i = 0 then (if nvIsComposite v then redactPathN ph v tail else v) :: rest
    else v :: redactIdxElems ph (i - 1) tail rest

/-- Descent into `target[head]` of an object. -/
def redactKeyFields (ph : String) (key : String) (tail : List String) :
    List (String × NValue) → List (String × NValue)
  | [] => []
  | (k, v) :: rest =>
    (k, if k = key ∧ nvIsComposite v then redactPathN ph v tail else v) ::
      redactKeyFields ph key tail rest

end

/-- `applyRedaction` (lines 317–330): each dot-path (empty segments
dropped) is resolved independently against the tree; non-object roots and
empty path lists are no-ops. -/
def applyRedactionN (v : NValue) (paths : List String) (ph : String) : NValue :=
  if paths.length = 0 then v
  else match v with
    | .nobj _ =>
      paths.foldl (fun acc path =>
        let parts := (path.splitOn ".").filter (· ≠ "")
        if parts.length = 0 then acc else redactPathN ph acc parts) v
    | .narr _ =>
      paths.foldl (fun acc path =>
        let parts := (path.splitOn ".").filter (· ≠ "")
        if parts.length = 0 then acc else redactPathN ph acc parts) v
    | _ => v

/-! ### Levels, configuration, entry assembly -/

/-- The six log levels. -/
inductive LogLevel where
  | trace
  | debug
  | info
  | warn
  | error
  | fatal
deriving DecidableEq, Repr

/-- `LEVEL_VALUES` (lines 59–66). -/
def levelValue : LogLevel → Int
  | .trace => 10
  | .debug => 20
  | .info => 30
  | .warn => 40
  | .error => 50
  | .fatal => 60

/-- The level's string name, as stored in the entry's `level` field. -/
def levelName : LogLevel → String
  | .trace => "trace"
  | .debug => "debug"
  | .info => "info"
  | .warn => "warn"
  | .error => "error"
  | .fatal => "fatal"

/-- A `Logger` instance's immutable state after the constructor (lines
602–634) has applied all defaults.  `bindings` is `normalizeData(options.
bindings) ?? {}`: an already-normalized field list.  The sampling rate is
a rational in `[0,1]`; the console transports themselves perform I/O and
are out of the verified core, so only the dispatched entry is modelled. -/
structure LoggerCfg where
  level : LogLevel
  name : Option String
  bindings : List (String × NValue)
  context : Bool
  contextKey : String
  contextKeys : List String
  redactDefaults : Bool
  redactFieldNames : List String
  redactKeys : List String
  redactPlaceholder : String
  timestamp : Bool
  sampleRate : ℚ
  includePid : Bool
  includeHostname : Bool

/-- Ambient process values read during entry assembly: `timeFn().
toISOString()`, `process.pid`, `os.hostname()`. -/
structure LogEnv where
  nowIso : String
  pid : Int
  hostname : String

mutual

/-- `normalizeValue` applied to an already-normalized tree (the stored
bindings object): every node is a fresh plain object/array/primitive, so
the traversal reduces to a structural rebuild (a `bigint` leaf — which
normalization can never have left behind — would be re-stringified). -/
def renormN : NValue → NValue
  | .prim (.bigint n) => .prim (.str (toString n))
  | .prim p => .prim p
  | .nobj fields => .nobj (renormNFields fields)
  | .narr elems => .narr (renormNElems elems)

/-- `renormN` over object entries. -/
def renormNFields : List (String × NValue) → List (String × NValue)
  | [] => []
  | (k, v) :: rest => (k, renormN v) :: renormNFields rest

/-- `renormN` over array elements. -/
def renormNElems : List NValue → List NValue
  | [] => []
  | v :: rest => renormN v :: renormNElems rest

end

/-- `pickContext(store, keys)` (lines 411–427): normalize the active
store and keep either the whole snapshot or the configured keys, in
allow-list order.  The store object itself enters the visited set in the
source; a store reachable from its own values is not representable here
and no claim depends on it. -/
def pickContextF (fuel : Nat) (h : Heap) (store : Store) (keys : List String) :
    Option (List (String × NValue)) := do
  let (snapshot, _) ← normalizeFieldsF fuel h store []
  if keys.length = 0 then some snapshot
  else
    some (keys.foldl (fun acc k =>
      match snapshot.lookup k with
      | some v => acc ++ [(k, v)]
      | none => acc) [])

/-- The `data && Object.keys(data).length > 0` guard.  `normalizeData`
can produce a record, an array (from a `Set`), or a string (from a
`Date`); `Object.keys` of a string primitive enumerates its character
indices. -/
def nvDataNonempty : NValue → Bool
  | .nobj fields => fields.length ≠ 0
  | .narr elems => elems.length ≠ 0
  | .prim (.str s) => s ≠ ""
  | .prim _ => false

/-- The observable result of one `log()` call: suppressed (level gate or
sampling), or an entry handed to every configured transport. -/
inductive LogOutcome where
  | dropped
  | emitted (entry : NValue)

/-- `Logger.log(level, ...args)` (lines 763–822).  `draw` is the
`Math.random()` result in `[0,1)`, consulted only when
`sampleRate < 1`.  The assembled entry is redacted by key name and then
by path before being handed to every transport; an `emitted` result means
each configured transport receives exactly this entry. -/
def logF (fuel : Nat) (cfg : LoggerCfg) (env : LogEnv) (draw : ℚ) (level : LogLevel)
    (args : List Value) (h : Heap) (active : Option Store) : Option LogOutcome :=
  if levelValue level < levelValue cfg.level then some .dropped
  else if cfg.sampleRate < 1 ∧ draw > cfg.sampleRate then some .dropped
  else do
    let parts ← extractPartsF fuel h args
    let base := [("level", NValue.prim (.str (levelName level))),
      ("levelValue", NValue.prim (.num (levelValue level))),
      ("message", parts.message.elim (NValue.prim .undef) (fun m => NValue.prim (.str m)))]
    let e1 := base ++ (if cfg.timestamp then [("timestamp", NValue.prim (.str env.nowIso))] else [])
    let e2 := e1 ++ (match cfg.name with
      | some n => if n = "" then [] else [("logger", NValue.prim (.str n))]
      | none => [])
    let e3 := e2 ++ (if cfg.includePid then [("pid", NValue.prim (.num env.pid))] else [])
    let e4 := e3 ++
      (if cfg.includeHostname then [("hostname", NValue.prim (.str env.hostname))] else [])
    let e5 := e4 ++ (match parts.data with
      | some d => if nvDataNonempty d then [("data", d)] else []
      | none => [])
    let e6 := e5 ++ (match parts.error with
      | some err => [("error", err)]
      | none => [])
    let e7 := e6 ++
      (if cfg.bindings.length ≠ 0 then [("bindings", renormN (NValue.nobj cfg.bindings))] else [])
    let e8 ← match cfg.context, active with
      | true, some s => do
        let ctx ← pickContextF fuel h s cfg.contextKeys
        pure (e7 ++ [(cfg.contextKey, NValue.nobj ctx)])
      | _, _ => pure e7
    let ks := buildRedactionKeySet cfg.redactFieldNames cfg.redactDefaults
    let r1 := applyKeyNameRedaction (NValue.nobj e8) ks cfg.redactPlaceholder
    let r2 := applyRedactionN r1 cfg.redactKeys cfg.redactPlaceholder
    some (.emitted r2)

/-! ## Concrete instances used by the verification -/

/-- What `normalizeValue` does to a primitive: `bigint` becomes its
decimal string, everything else passes through. -/
def normalizePrim : JsPrim → NValue
  | .bigint n => .prim (.str (toString n))
  | p => .prim p

/-- Whether the heap object at `a` is a plain object owning key `k`. -/
def objHasField (h : Heap) (a : Nat) (k : String) : Bool :=
  match h.get? a with
  | some (.obj fs) => fs.any (fun p => p.1 = k)
  | _ => false

/-- A heap holding an acyclic chain of `n + 1` nested plain objects:
object `i` is `{a: <object i+1>}` and object `n` is `{a: 1}`. -/
def chainHeap (n : Nat) : Heap :=
  (List.range (n + 1)).map fun i =>
    if i < n then .obj [("a", .ref (i + 1))] else .obj [("a", .prim (.num 1))]

/-- The full normalization of the chain: `k + 1` nested objects. -/
def chainNorm : Nat → NValue
  | 0 => .nobj [("a", .prim (.num 1))]
  | k + 1 => .nobj [("a", chainNorm k)]

/-- A single-object cyclic heap: `obj.self === obj`. -/
def cycHeap : Heap := [.obj [("self", .ref 0)]]

/-- An `Error` whose `cause` is itself (`err.cause = err` is legal JS). -/
def selfCauseHeap : Heap := [.errObj "Error" "boom" none (some (.ref 0))]

/-- A plain empty object at address 0 and an `Error` (with no `cause`)
at address 1: the argument objects of the `extractParts` experiments. -/
def partsHeap : Heap := [.obj [], .errObj "Error" "boom" (some "stack0") none]

/-- `serializeError` of the `Error` at `partsHeap` address 1. -/
def partsErrNV : NValue :=
  .nobj [("name", .prim (.str "Error")), ("message", .prim (.str "boom")),
    ("stack", .prim (.str "stack0"))]

/-- The normalized tree of the redaction example in the specification. -/
def redactionTree : NValue :=
  .nobj [("password", .prim (.str "secret")),
    ("nested", .nobj [("token", .prim (.str "tok")), ("safe", .prim (.str "ok"))]),
    ("creditCard", .prim (.str "4111"))]

/-- A parent store whose `options` key references the (initially empty)
shared bag at heap address 0. -/
def c1Parent : Store := [("options", .ref 0)]

/-- The heap before the derived scope runs: one empty options bag. -/
def c1Heap : Heap := [.obj []]

/-- The heap after the derived scope's `addOptions({retry: 2})`: the
shared bag was merged into in place. -/
def c1HeapAfter : Heap := [.obj [("retry", .prim (.num 2))]]

/-- A logger configuration with every constructor default except the
given sampling rate, `context: false` and no transports overridden. -/
def sampleCfg (rate : ℚ) : LoggerCfg where
  level := .info
  name := none
  bindings := []
  context := false
  contextKey := "context"
  contextKeys := []
  redactDefaults := true
  redactFieldNames := []
  redactKeys := []
  redactPlaceholder := "[REDACTED]"
  timestamp := true
  sampleRate := rate
  includePid := true
  includeHostname := false

/-- A fixed ambient environment for the logging experiments. -/
def envC : LogEnv where
  nowIso := "2024-01-01T00:00:00.000Z"
  pid := 1
  hostname := "host"

/-- The entry `sampleCfg` emits for `log("info", "hello")`. -/
def helloEntry : NValue :=
  .nobj [("level", .prim (.str "info")), ("levelValue", .prim (.num 30)),
    ("message", .prim (.str "hello")),
    ("timestamp", .prim (.str "2024-01-01T00:00:00.000Z")),
    ("pid", .prim (.num 1))]

/-! ## Helper lemmas on store lookup and merge -/

/-- Own-property lookup on a non-empty store. -/
theorem storeLookup_cons (k₀ : String) (v₀ : Value) (rest : Store) (k : String) :
    storeLookup ((k₀, v₀) :: rest) k = if k = k₀ then some v₀ else storeLookup rest k := by
  by_cases h : k = k₀
  · subst h; simp [storeLookup, List.lookup]
  · have hb : (k == k₀) = false := beq_eq_false_iff_ne.mpr h
    simp [storeLookup, List.lookup, hb, h]

/-- A key outside the binding list is not found. -/
theorem storeLookup_not_mem (s : Store) (k : String) (h : k ∉ s.map Prod.fst) :
    storeLookup s k = none := by
  induction s with
  | nil => rfl
  | cons p rest ih =>
    simp only [List.map_cons, List.mem_cons] at h
    push_neg at h
    rw [show p = (p.1, p.2) from rfl, storeLookup_cons, if_neg h.1]
    exact ih h.2

/-- Lookup distributes over appended binding lists. -/
theorem storeLookup_append (s t : Store) (k : String) :
    storeLookup (s ++ t) k = (storeLookup s k).elim (storeLookup t k) some := by
  induction s with
  | nil => rfl
  | cons p rest ih =>
    rw [show p = (p.1, p.2) from rfl, List.cons_append, storeLookup_cons, storeLookup_cons]
    by_cases h : k = p.1
    · simp [h]
    · simp [h, ih]

/-- Replacing the value of a present key is observed by lookup. -/
theorem lookup_map_set_self (s : Store) (k : String) (v : Value)
    (hany : ∃ v', (k, v') ∈ s) :
    storeLookup (s.map fun p => if p.1 = k then (p.1, v) else p) k = some v := by
  induction s with
  | nil => simp at hany
  | cons p rest ih =>
    simp only [List.map_cons]
    by_cases hp : p.1 = k
    · rw [if_pos hp, storeLookup_cons, if_pos hp.symm]
    · rw [if_neg hp]
      obtain ⟨v', hv'⟩ := hany
      rcases List.mem_cons.mp hv' with heq | hmem
      · exact absurd (congrArg Prod.fst heq.symm) hp
      · rw [show p = (p.1, p.2) from rfl, storeLookup_cons, if_neg (fun hk => hp hk.symm)]
        exact ih ⟨v', hmem⟩

/-- Replacing the value of key `k` leaves other lookups unchanged. -/
theorem lookup_map_set_ne (s : Store) (k : String) (v : Value) (k' : String) (h : k' ≠ k) :
    storeLookup (s.map fun p => if p.1 = k then (p.1, v) else p) k' = storeLookup s k' := by
  induction s with
  | nil => rfl
  | cons p rest ih =>
    simp only [List.map_cons]
    by_cases hp : p.1 = k
    · rw [if_pos hp, storeLookup_cons, storeLookup_cons]
      by_cases hk : k' = p.1
      · exact absurd (hk.trans hp) h
      · simp [hk, ih]
    · rw [if_neg hp, show p = (p.1, p.2) from rfl, storeLookup_cons, storeLookup_cons]
      by_cases hk : k' = p.1 <;> simp [hk, ih]

/-- After `obj[k] = v`, looking up `k` yields `v`. -/
theorem lookup_setKey_self (s : Store) (k : String) (v : Value) :
    storeLookup (setKey s k v) k = some v := by
  unfold setKey
  by_cases hany : s.any (fun p => p.1 = k) = true
  · rw [if_pos hany]
    obtain ⟨p, hp, hdec⟩ := List.any_eq_true.mp hany
    have hpk : p.1 = k := by simpa using hdec
    exact lookup_map_set_self s k v ⟨p.2, by rw [← hpk]; exact hp⟩
  · rw [if_neg hany, storeLookup_append]
    have hnm : k ∉ s.map Prod.fst := by
      intro hmem
      obtain ⟨p, hp, hpk⟩ := List.mem_map.mp hmem
      exact hany (List.any_eq_true.mpr ⟨p, hp, by simp [hpk]⟩)
    rw [storeLookup_not_mem s k hnm]
    simp [storeLookup_cons]

/-- After `obj[k] = v`, looking up any other key is unchanged. -/
theorem lookup_setKey_ne (s : Store) (k : String) (v : Value) (k' : String) (h : k' ≠ k) :
    storeLookup (setKey s k v) k' = storeLookup s k' := by
  unfold setKey
  by_cases hany : s.any (fun p => p.1 = k) = true
  · rw [if_pos hany]; exact lookup_map_set_ne s k v k' h
  · rw [if_neg hany, storeLookup_append, storeLookup_cons, if_neg h]
    cases hl : storeLookup s k' <;> simp [hl, storeLookup]

/-- Spread-merge semantics: a key of the merged store resolves to the
overlay's binding when present (overlay wins), otherwise the base's.
The overlay's keys must be duplicate-free, as the keys of any JS object
literal are. -/
theorem mergeStores_lookup (O : List (String × Value)) (P : Store) (k : String)
    (hnd : (O.map Prod.fst).Nodup) :
    storeLookup (mergeStores P O) k = (storeLookup O k).elim (storeLookup P k) some := by
  induction O generalizing P with
  | nil => rfl
  | cons p rest ih =>
    simp only [List.map_cons, List.nodup_cons] at hnd
    have hstep : mergeStores P ((p.1, p.2) :: rest) = mergeStores (setKey P p.1 p.2) rest := rfl
    rw [show p = (p.1, p.2) from rfl, hstep, ih (setKey P p.1 p.2) hnd.2, storeLookup_cons]
    by_cases hk : k = p.1
    · rw [if_pos hk]
      have h1 : storeLookup rest k = none :=
        storeLookup_not_mem rest k (by rw [hk]; exact hnd.1)
      rw [h1]
      simp only [Option.elim]
      rw [hk]
      exact lookup_setKey_self P p.1 p.2
    · cases hl : storeLookup rest k <;>
        simp [hl, hk, lookup_setKey_ne P p.1 p.2 k hk]

/-! ## Helper lemmas on the self-referential error cause -/

/-- Normalizing the self-caused `Error` never terminates: the `cause` is
normalized with a fresh visited set, so no amount of fuel suffices. -/
theorem selfCause_norm (fuel : Nat) :
    normalizeValueF fuel selfCauseHeap (.ref 0) [] = none := by
  have hget : selfCauseHeap[0]? = some (HeapObj.errObj "Error" "boom" none (some (.ref 0))) := rfl
  induction fuel with
  | zero => simp [normalizeValueF]
  | succ f ih => simp [normalizeValueF, hget, serializeErrorFieldsF, ih]

/-- `serializeError` on the self-caused `Error` never terminates. -/
theorem selfCause_serialize (fuel : Nat) :
    serializeErrorF fuel selfCauseHeap (.ref 0) = none := by
  have hget : selfCauseHeap[0]? = some (HeapObj.errObj "Error" "boom" none (some (.ref 0))) := rfl
  simp [serializeErrorF, jsTruthy, hget, serializeErrorFieldsF, selfCause_norm fuel]

/-- Argument extraction on the self-caused `Error` never terminates. -/
theorem selfCause_extract (fuel : Nat) :
    extractPartsF fuel selfCauseHeap [.ref 0] = none := by
  have hget : selfCauseHeap[0]? = some (HeapObj.errObj "Error" "boom" none (some (.ref 0))) := rfl
  simp [extractPartsF, asString, isErrorInstance, hget, normalizeDataF,
    selfCause_serialize fuel]

/-! ## Helper lemmas on the deep acyclic chain -/

/-- The chain heap holds `n + 1` objects. -/
theorem chainHeap_length (n : Nat) : (chainHeap n).length = n + 1 := by
  simp [chainHeap]

/-- The object stored at chain position `i`. -/
theorem chainHeap_get (n i : Nat) (hi : i ≤ n) :
    (chainHeap n)[i]? =
      some (if i < n then .obj [("a", .ref (i + 1))] else .obj [("a", .prim (.num 1))]) := by
  simp [chainHeap, List.getElem?_map, List.getElem?_range (show i < n + 1 by omega)]

/-- Normalization of the chain suffix starting at position `i` succeeds
with `n - i + 1` first visits and returns the full nested tree. -/
theorem chain_eval_aux : ∀ (fuel n i : Nat) (seen : List Nat),
    i ≤ n → (∀ j ∈ seen, j < i) → n - i < fuel →
    ∃ s, normalizeValueF fuel (chainHeap n) (.ref i) seen = some (chainNorm (n - i), s) := by
  intro fuel
  induction fuel with
  | zero => intro n i seen _ _ hfuel; omega
  | succ f ih =>
    intro n i seen hi hseen hfuel
    have hnotin : i ∉ seen := fun hmem => absurd (hseen i hmem) (lt_irrefl i)
    by_cases hlt : i < n
    · have hget := chainHeap_get n i hi
      rw [if_pos hlt] at hget
      obtain ⟨s', hs'⟩ := ih n (i + 1) (i :: seen) (by omega)
        (by
          intro j hj
          rcases List.mem_cons.mp hj with h | h
          · omega
          · exact Nat.lt_succ_of_lt (hseen j h))
        (by omega)
      refine ⟨s', ?_⟩
      have hrw : n - i = (n - (i + 1)) + 1 := by omega
      simp [normalizeValueF, hnotin, hget, normalizeFieldsF, hs', hrw, chainNorm]
    · have hget := chainHeap_get n i hi
      rw [if_neg hlt] at hget
      have h0 : n - i = 0 := by omega
      refine ⟨i :: seen, ?_⟩
      simp [normalizeValueF, hnotin, hget, normalizeFieldsF, h0, chainNorm]

/-- `normalizeValue` maps the depth-`n` chain to its full nested tree. -/
theorem chain_eval (n : Nat) :
    ∃ s, normalizeValue (chainHeap n) (.ref 0) = some (chainNorm n, s) := by
  have h := chain_eval_aux ((chainHeap n).length + 1) n 0 [] (by omega) (by simp)
    (by rw [chainHeap_length]; omega)
  simpa [normalizeValue] using h

/-- No `"[MaxDepth]"` marker ever appears in a normalized chain. -/
theorem chainNorm_noMaxDepth : ∀ k, nvContains "[MaxDepth]" (chainNorm k) = false
  | 0 => by simp [chainNorm, nvContains, nvContainsFields]
  | k + 1 => by simp [chainNorm, nvContains, nvContainsFields, chainNorm_noMaxDepth k]

/-- The normalized chain keeps its full nesting depth. -/
theorem chainNorm_depth : ∀ k, nvDepth (chainNorm k) = k + 1
  | 0 => by simp [chainNorm, nvDepth, nvDepthFields]
  | k + 1 => by simp [chainNorm, nvDepth, nvDepthFields, chainNorm_depth k]

/-! ## Claim theorems -/

/-- C1 (counterexample): the claim that no store mutation performed in a
derived scope is ever observable in the parent's store is false.  With a
parent store whose `options` key references the shared bag at address 0,
the derived scope starts as the same binding map (shallow copy); calling
`addOptions({retry: 2})` inside it mutates the shared bag IN PLACE, so
after the child ends the parent's own `options` binding — unchanged, still
`ref 0` — now resolves to `{retry: 2}` instead of `{}`. -/
theorem C1_counterexample :
    runWithStore (some c1Parent) [] = c1Parent
    ∧ addOptions [("retry", .prim (.num 2))] "options" (runWithStore (some c1Parent) []) c1Heap
        = .ok (c1Parent, c1HeapAfter)
    ∧ storeLookup c1Parent "options" = some (.ref 0)
    ∧ c1HeapAfter[0]? ≠ c1Heap[0]? := by
  refine ⟨rfl, ?_, rfl, by decide⟩
  simp [addOptions, runWithStore, mergeStores, storeLookup, List.lookup, c1Parent, c1Heap,
    c1HeapAfter, setKey]

/-- C1 (amended): `runWith` starts the derived scope with the shallow
merge of parent and overlay, overlay keys winning; and the purely
top-level store operations (`addValue`, `addObjectValue`, `remove`,
`reset`, `setDefault`) never touch the heap, hence never affect what the
parent's own bindings resolve to.  (The exceptions — `addOptions` merging
into an existing bag and `recordPerformance` appending to an existing
array, both of which mutate heap objects shared through the shallow
copy — are exactly the mutations exhibited by the counterexample.) -/
theorem C1_derived_scope_isolation (P O s : Store) (h : Heap) (k key : String) (v : Value)
    (o : List (String × Value)) (hnd : (O.map Prod.fst).Nodup) :
    storeLookup (runWithStore (some P) O) k = (storeLookup O k).elim (storeLookup P k) some
    ∧ (addValue key v s h).2 = h
    ∧ (addObjectValue o s h).2 = h
    ∧ (removeOp key s h).2 = h
    ∧ (resetOp s h).2 = h
    ∧ (setDefaultOp key v s h).2 = h := by
  refine ⟨?_, rfl, rfl, rfl, rfl, rfl⟩
  simpa [runWithStore] using mergeStores_lookup O P k hnd

/-- Witness for `C1_derived_scope_isolation` at a concrete parent,
overlay, and operation arguments. -/
theorem C1_derived_scope_isolation_witness :
    storeLookup (runWithStore (some [("parent", Value.prim (.bool true))])
        [("child", Value.prim (.bool true))]) "child"
      = (storeLookup [("child", Value.prim (.bool true))] "child").elim
          (storeLookup [("parent", Value.prim (.bool true))] "child") some
    ∧ (addValue "k" (.prim .null) [] []).2 = ([] : Heap)
    ∧ (addObjectValue [] [] []).2 = ([] : Heap)
    ∧ (removeOp "k" [] []).2 = ([] : Heap)
    ∧ (resetOp [] []).2 = ([] : Heap)
    ∧ (setDefaultOp "k" (.prim .null) [] []).2 = ([] : Heap) :=
  C1_derived_scope_isolation [("parent", Value.prim (.bool true))]
    [("child", Value.prim (.bool true))] [] [] "child" "k" (.prim .null) [] (by simp)

/-- C2: for `sampleRate = 0` the gate is `0 < 1 && draw > 0`, which does
NOT drop the entry when `Math.random()` returns exactly `0` — a possible
value of a draw in `[0,1)` — so the entry is assembled and handed to
every transport, contradicting "sampleRate = 0 must never emit"; for
`sampleRate = 1` the `sampleRate < 1` test fails before any draw is
consulted, so every enabled call emits, for every draw. -/
theorem C2_sampling_boundary :
    logF 2 (sampleCfg 0) envC 0 .info [.prim (.str "hello")] [] none
      = some (.emitted helloEntry)
    ∧ ∀ d : ℚ, logF 2 (sampleCfg 1) envC d .info [.prim (.str "hello")] [] none
      = some (.emitted helloEntry) := by
  have hks : ∀ k ∈ ["level", "levelValue", "message", "timestamp", "pid"],
      normalizeRedactionKey k ∉ buildRedactionKeySet [] true := by decide
  constructor
  · have hl : ¬(levelValue .info < levelValue (sampleCfg 0).level) := by
      simp [levelValue, sampleCfg]
    have hs : ¬((sampleCfg 0).sampleRate < 1 ∧ (0 : ℚ) > (sampleCfg 0).sampleRate) := by
      simp [sampleCfg]
    simp [logF, hl, hs, extractPartsF, asString, isErrorInstance, normalizeDataF,
      serializeErrorF, jsTruthy, sampleCfg, envC, levelValue, levelName,
      applyKeyNameRedaction, knVisit, knFields, applyRedactionN, helloEntry,
      hks "level" (by simp), hks "levelValue" (by simp), hks "message" (by simp),
      hks "timestamp" (by simp), hks "pid" (by simp)]
  · intro d
    have hl : ¬(levelValue .info < levelValue (sampleCfg 1).level) := by
      simp [levelValue, sampleCfg]
    have hs : ¬((sampleCfg 1).sampleRate < 1 ∧ d > (sampleCfg 1).sampleRate) := by
      simp [sampleCfg]
    simp [logF, hl, hs, extractPartsF, asString, isErrorInstance, normalizeDataF,
      serializeErrorF, jsTruthy, sampleCfg, envC, levelValue, levelName,
      applyKeyNameRedaction, knVisit, knFields, applyRedactionN, helloEntry,
      hks "level" (by simp), hks "levelValue" (by simp), hks "message" (by simp),
      hks "timestamp" (by simp), hks "pid" (by simp)]

/-- C3 (counterexample): `normalizeValue` enforces no depth bound.  If it
did, there would be a bound `d` such that normalizing an acyclic chain
nested deeper than `d` puts a `"[MaxDepth]"` marker somewhere in the
output; but for every candidate bound the chain of depth `d + 1`
normalizes in full with no marker anywhere. -/
theorem C3_counterexample :
    ¬ ∃ d : Nat, ∀ (n : Nat) (r : NValue) (s : List Nat), d < n →
        normalizeValue (chainHeap n) (.ref 0) = some (r, s) →
        nvContains "[MaxDepth]" r = true := by
  rintro ⟨d, hd⟩
  obtain ⟨s, hs⟩ := chain_eval (d + 1)
  have htrue := hd (d + 1) (chainNorm (d + 1)) s (by omega) hs
  rw [chainNorm_noMaxDepth] at htrue
  exact Bool.false_ne_true htrue

/-- C3 (amended): value normalization is cycle-guarded — a reference
cycle is replaced by the `"[Circular]"` marker via the per-call visited
set — but it enforces NO recursion-depth bound: an acyclic chain of any
depth `n` is normalized in full, the output preserves the whole depth,
and no `"[MaxDepth]"` marker is ever produced (that marker exists only in
the Sentry integration's own normalizer, outside the logger). -/
theorem C3_no_depth_bound (n : Nat) :
    (∃ s, normalizeValue (chainHeap n) (.ref 0) = some (chainNorm n, s))
    ∧ nvContains "[MaxDepth]" (chainNorm n) = false
    ∧ nvDepth (chainNorm n) = n + 1
    ∧ normalizeValue cycHeap (.ref 0)
        = some (.nobj [("self", .prim (.str "[Circular]"))], [0]) := by
  refine ⟨chain_eval n, chainNorm_noMaxDepth n, chainNorm_depth n, ?_⟩
  simp [normalizeValue, normalizeValueF, normalizeFieldsF, cycHeap]

/-- C4 (counterexample): in `log(level, dataObject, err, "msg")` the
extracted message is absent, not `"msg"`: a third-position string never
becomes the message. -/
theorem C4_counterexample :
    (extractPartsF 2 partsHeap [.ref 0, .ref 1, .prim (.str "msg")]).map ExtractedParts.message
      = some none
    ∧ (some (none : Option String) ≠ some (some "msg")) := by
  constructor
  · simp [extractPartsF, partsHeap, asString, isErrorInstance, normalizeDataF, isRecordV,
      serializeErrorF, serializeErrorFieldsF, normalizeValueF, normalizeFieldsF, jsTruthy]
  · simp

/-- C4 (amended): when the first argument is neither a string nor
error-like it becomes the data bag; the message is taken from the SECOND
argument only, when that argument is a string; the error is the second
argument when error-like and otherwise the serialization of the third.
In particular `log(level, dataObject, err, "msg")` produces no message
(`"msg"` is discarded), while `log(level, dataObject, "msg", err)`
produces message `"msg"` and error `err`. -/
theorem C4_argument_dispatch (m : String) :
    extractPartsF 2 partsHeap [.ref 0, .ref 1, .prim (.str m)]
      = some ⟨none, some (.nobj []), some partsErrNV⟩
    ∧ extractPartsF 2 partsHeap [.ref 0, .prim (.str m), .ref 1]
      = some ⟨some m, some (.nobj []), some partsErrNV⟩ := by
  constructor
  · simp [extractPartsF, partsHeap, asString, isErrorInstance, normalizeDataF, isRecordV,
      serializeErrorF, serializeErrorFieldsF, normalizeValueF, normalizeFieldsF, jsTruthy,
      partsErrNV]
  · simp [extractPartsF, partsHeap, asString, isErrorInstance, normalizeDataF, isRecordV,
      serializeErrorF, serializeErrorFieldsF, normalizeValueF, normalizeFieldsF, jsTruthy,
      partsErrNV]

/-- C5 (counterexample): a work callback that throws the falsy value `0`
still records a `PerformanceEntry` and the exception is propagated, but
the entry carries NO error descriptor: `finalize` guards the descriptor
with JS truthiness (`if (error)`), so a falsy thrown value is treated
like success for the purpose of the error field. -/
theorem C5_counterexample :
    measure "op" (.error (.prim (.num 0))) ⟨none, none, none⟩ 10 25 (some []) []
      = (.error (.prim (.num 0)), some [("perf", .ref 1)],
         [.obj [("name", .prim (.str "op")), ("startedAt", .prim (.num 10)),
            ("endedAt", .prim (.num 25)), ("durationMs", .prim (.num 15))],
          .arr [.ref 0]])
    ∧ objHasField [.obj [("name", .prim (.str "op")), ("startedAt", .prim (.num 10)),
            ("endedAt", .prim (.num 25)), ("durationMs", .prim (.num 15))],
          .arr [.ref 0]] 0 "error" = false := by
  constructor
  · simp [AsyncContext.measure, jsTruthy, recordPerformance, storeLookup, setKey, List.lookup]
  · rfl

/-- C5 (amended): inside an active scope, a work callback that throws a
TRUTHY value records a `PerformanceEntry` at the configured key (default
`perf`) carrying the normalized `{name?, message}` error descriptor, and
the original exception is propagated unchanged; a falsy thrown value
(0, "", false, null, undefined, 0n) still records the entry and still
propagates, but without the error descriptor. -/
theorem C5_measure_error_recording (nm : String) (e : Value) (t0 t1 : Int)
    (he : jsTruthy e = true) :
    measure nm (.error e) ⟨none, none, none⟩ t0 t1 (some []) []
      = (.error e, some [("perf", .ref 2)],
         [.obj (normalizePerformanceError [] e),
          .obj [("name", .prim (.str nm)), ("startedAt", .prim (.num t0)),
            ("endedAt", .prim (.num t1)), ("durationMs", .prim (.num (max 0 (t1 - t0)))),
            ("error", .ref 0)],
          .arr [.ref 1]]) := by
  simp [AsyncContext.measure, he, recordPerformance, storeLookup, setKey, List.lookup]

/-- Witness for `C5_measure_error_recording`: a thrown string `"boom"`. -/
theorem C5_measure_error_recording_witness :
    jsTruthy (.prim (.str "boom")) = true
    ∧ measure "op" (.error (.prim (.str "boom"))) ⟨none, none, none⟩ 10 25 (some []) []
      = (.error (.prim (.str "boom")), some [("perf", .ref 2)],
         [.obj (normalizePerformanceError [] (.prim (.str "boom"))),
          .obj [("name", .prim (.str "op")), ("startedAt", .prim (.num 10)),
            ("endedAt", .prim (.num 25)), ("durationMs", .prim (.num (max 0 (25 - 10)))),
            ("error", .ref 0)],
          .arr [.ref 1]]) :=
  ⟨rfl, C5_measure_error_recording "op" (.prim (.str "boom")) 10 25 rfl⟩

/-- C6: `getValue` is an own-property lookup on the active store: a
present key returns its stored value; a key explicitly present with
value `undefined` returns `undefined` (the fallback is NOT substituted);
the fallback is returned exactly when the key is absent or no scope is
active. -/
theorem C6_getValue_own_property :
    (∀ (k : String) (v fb : Value), getValue (some [(k, v)]) k fb = v)
    ∧ (∀ (k : String) (fb : Value), getValue (some [(k, .prim .undef)]) k fb = .prim .undef)
    ∧ (∀ (s : Store) (k : String) (fb : Value), storeLookup s k = none →
        getValue (some s) k fb = fb)
    ∧ (∀ (k : String) (fb : Value), getValue none k fb = fb) := by
  refine ⟨?_, ?_, ?_, ?_⟩
  · intro k v fb; simp [getValue, storeLookup, List.lookup]
  · intro k fb; simp [getValue, storeLookup, List.lookup]
  · intro s k fb hl; simp [getValue, hl]
  · intro k fb; rfl

/-- Witness for `C6_getValue_own_property` at concrete keys and values. -/
theorem C6_getValue_own_property_witness :
    getValue (some [("requestId", Value.prim (.str "r1"))]) "requestId" (.prim .null)
      = .prim (.str "r1")
    ∧ getValue (some []) "missing" (.prim (.num 7)) = .prim (.num 7) :=
  ⟨C6_getValue_own_property.1 "requestId" (.prim (.str "r1")) (.prim .null),
   C6_getValue_own_property.2.2.1 [] "missing" (.prim (.num 7)) rfl⟩

/-- C7: name-based redaction of the spec's example tree with field name
`creditCard` added to the built-in defaults replaces the values at
`password`, `nested.token` and `creditCard` with the placeholder and
leaves `nested.safe` untouched; key names are compared case-insensitively
after stripping non-alphanumeric characters. -/
theorem C7_name_redaction :
    applyKeyNameRedaction redactionTree (buildRedactionKeySet ["creditCard"] true) "[REDACTED]"
      = .nobj [("password", .prim (.str "[REDACTED]")),
          ("nested", .nobj [("token", .prim (.str "[REDACTED]")), ("safe", .prim (.str "ok"))]),
          ("creditCard", .prim (.str "[REDACTED]"))]
    ∧ normalizeRedactionKey "creditCard" = normalizeRedactionKey "CREDIT-card"
    ∧ normalizeRedactionKey "creditCard" = "creditcard" := by
  have h1 : normalizeRedactionKey "password" ∈ buildRedactionKeySet ["creditCard"] true := by
    decide
  have h2 : normalizeRedactionKey "nested" ∉ buildRedactionKeySet ["creditCard"] true := by
    decide
  have h3 : normalizeRedactionKey "token" ∈ buildRedactionKeySet ["creditCard"] true := by
    decide
  have h4 : normalizeRedactionKey "safe" ∉ buildRedactionKeySet ["creditCard"] true := by
    decide
  have h5 : normalizeRedactionKey "creditCard" ∈ buildRedactionKeySet ["creditCard"] true := by
    decide
  have hlen : (buildRedactionKeySet ["creditCard"] true).length = 24 := rfl
  refine ⟨?_, rfl, rfl⟩
  simp [applyKeyNameRedaction, knVisit, knFields, knElems, redactionTree, h1, h2, h3, h4, h5,
    hlen]

/-- C8: `log` is NOT total.  For an `Error` whose `cause` is itself, the
entire pipeline diverges for every amount of fuel: `serializeError`
normalizes `error.cause` with a fresh visited set, so the cycle guard
never fires and the recursion is unbounded (at runtime, a stack
overflow — `log` throws, contradicting the never-throws contract). -/
theorem C8_log_self_cause_diverges (fuel : Nat) (d : ℚ) :
    logF fuel (sampleCfg 1) envC d .error [.ref 0] selfCauseHeap none = none := by
  have hl : ¬(levelValue .error < levelValue (sampleCfg 1).level) := by
    simp [levelValue, sampleCfg]
  have hs : ¬((sampleCfg 1).sampleRate < 1 ∧ d > (sampleCfg 1).sampleRate) := by
    simp [sampleCfg]
  simp [logF, hl, hs, selfCause_extract fuel]

/-- C9: the visited set of `normalizeValue` is extended on first visit
and never pruned when a subtree is exited, so in an acyclic value that
merely SHARES one object at two positions, the later occurrence
normalizes to `"[Circular]"` instead of its contents — for any key names
and any primitive payload. -/
theorem C9_shared_reference_circular (k1 k2 : String) (p : JsPrim) :
    normalizeValue [.obj [(k1, .ref 1), (k2, .ref 1)], .obj [("v", .prim p)]] (.ref 0)
      = some (.nobj [(k1, .nobj [("v", normalizePrim p)]), (k2, .prim (.str "[Circular]"))],
          [1, 0]) := by
  cases p <;> simp [normalizeValue, normalizeValueF, normalizeFieldsF, normalizePrim]

/-- C10: `measure` with no active scope never raises `NoActiveScope`:
the outcome of the work callback — return value or thrown value — is
propagated unchanged, the store stays absent, and the built entry is
silently discarded (`recordPerformance` returns without effect when
`getStore()` is undefined), leaving the heap untouched. -/
theorem C10_measure_no_scope (nm : String) (outcome : Except Value Value)
    (opts : MeasureOptions) (t0 t1 : Int) (h : Heap) :
    measure nm outcome opts t0 t1 none h = (outcome, none, h) := rfl

end AsyncContext
